import Mathlib

/-!
Verification of the index-page fragment injector and content assembler of
`scripts/generate_recettes.py`.

Documents are modelled as `List Char` (Python `str`).  Every definition below
is a direct shallow embedding of the corresponding Python code; the Python
line numbers are given in the doc comments.  The two regular expressions used
by the injector (the card-deduplication pattern and the `.grid` anchor
pattern) are fixed patterns, so they are embedded as dedicated matching
functions that follow the Python `re` semantics (leftmost match, greedy or
lazy quantifiers as written) for those fixed patterns.
-/

set_option maxRecDepth 40000

namespace Recettes

/-- Convert a Lean string literal to the `List Char` document model. -/
def str (s : String) : List Char := s.data

/-- Python `\s` on ASCII text (`str.strip` uses the same set). -/
def pyIsSpace (c : Char) : Bool :=
  c = ' ' ∨ c = '\t' ∨ c = '\n' ∨ c = '\x0d' ∨ c = '\x0b' ∨ c = '\x0c'

/-- Python `\w` on ASCII text (used by the `\b` word boundaries). -/
def isWordChar (c : Char) : Bool :=
  (('a' ≤ c ∧ c ≤ 'z') ∨ ('A' ≤ c ∧ c ≤ 'Z') ∨ ('0' ≤ c ∧ c ≤ '9') ∨ c = '_')

/-- Case-insensitive character comparison (`re.I`). -/
def lowEq (a b : Char) : Bool := a.toLower == b.toLower

/-- Index of the first (leftmost) occurrence of `pat` in `s`, as scanned by
`str.find` or a regular-expression literal search. -/
def findSubstr (pat : List Char) : List Char → Option Nat
  | [] => if pat = [] then some 0 else none
  | c :: t =>
    if pat.isPrefixOf (c :: t) then some 0
    else (findSubstr pat t).map (· + 1)

/-- Python `pat in s`. -/
def containsSubstr (pat s : List Char) : Bool := (findSubstr pat s).isSome

/-- Prefix test that inspects the pattern first, so that a fully concrete
pattern reduces even on a partially symbolic text. -/
def isPrefixAt : List Char → List Char → Bool
  | [], _ => true
  | p :: ps, s =>
    match s with
    | [] => false
    | c :: cs => p == c && isPrefixAt ps cs

/-- Number of positions of `s` at which `pat` starts (used to count rendered
blocks, cards and stamps).  The recursion puts the hit count on the right of
the addition so that concrete prefixes reduce definitionally. -/
def countOcc (pat : List Char) : List Char → Nat
  | [] => 0
  | c :: t =>
    countOcc pat t + (if isPrefixAt pat (c :: t) then 1 else 0)

/-- Python `str.replace(pat, repl)` (all occurrences, left to right, the
replacement text is not rescanned).  Fuel-indexed worker. -/
def replaceAllF (pat repl : List Char) : Nat → List Char → List Char
  | 0, s => s
  | f + 1, s =>
    if pat ≠ [] ∧ pat.isPrefixOf s then
      repl ++ replaceAllF pat repl f (s.drop pat.length)
    else
      match s with
      | [] => []
      | c :: t => c :: replaceAllF pat repl f t

/-- Python `s.replace(pat, repl)`. -/
def pyReplace (s pat repl : List Char) : List Char := replaceAllF pat repl s.length s

/-- Python `s.lstrip()` (whitespace on the left). -/
def lstripWs (s : List Char) : List Char := s.dropWhile pyIsSpace

/-- Python `s.rstrip()` (whitespace on the right). -/
def rstripWs (s : List Char) : List Char := (s.reverse.dropWhile pyIsSpace).reverse

/-- Python `s.strip()`. -/
def pyStrip (s : List Char) : List Char := rstripWs (lstripWs s)

/-- Python `os.path.basename`: the part after the last slash. -/
def basename (p : List Char) : List Char :=
  (p.reverse.takeWhile (fun c => c != '/')).reverse

/-- The stem of `os.path.splitext(name)`: everything before the last dot,
except that a name whose characters before that dot are all dots (such as a
leading-dot file name) is returned whole. -/
def stemOf (name : List Char) : List Char :=
  match name.reverse.findIdx? (fun c => c == '.') with
  | none => name
  | some i =>
    let cut := name.length - 1 - i
    if (name.take cut).any (fun c => c != '.') then name.take cut else name

/-- Decimal digit character. -/
def digitChar (n : Nat) : Char := Char.ofNat (48 + n % 10)

/-- Decimal digits of a natural number (fuel-indexed worker). -/
def natDigitsF : Nat → Nat → List Char
  | 0, _ => []
  | f + 1, n => if n < 10 then [digitChar n] else natDigitsF f (n / 10) ++ [digitChar (n % 10)]

/-- Decimal representation of a natural number. -/
def natStr (n : Nat) : List Char := natDigitsF (n + 1) n

/-- Zero-pad on the left to width `w` (`strftime` field padding). -/
def padZero (w : Nat) (s : List Char) : List Char := List.replicate (w - s.length) '0' ++ s

/-- Two-digit zero-padded field. -/
def pad2 (n : Nat) : List Char := padZero 2 (natStr n)

/-- Four-digit zero-padded field. -/
def pad4 (n : Nat) : List Char := padZero 4 (natStr n)

/-- Python `f"{q}"` for an integer quantity. -/
def intStr : Int → List Char
  | .ofNat n => natStr n
  | .negSucc m => '-' :: natStr (m + 1)

/-- A `datetime.datetime` value (only the fields the script formats). -/
structure PyDateTime where
  year : Nat
  month : Nat
  day : Nat
  hour : Nat
  minute : Nat
  second : Nat

/-- `strftime("%Y-%m-%d %H:%M:%S +0000")` — the audit-stamp timestamp
(line 337 of the script). -/
def fmtUtcStamp (t : PyDateTime) : List Char :=
  pad4 t.year ++ str "-" ++ pad2 t.month ++ str "-" ++ pad2 t.day ++ str " " ++
    pad2 t.hour ++ str ":" ++ pad2 t.minute ++ str ":" ++ pad2 t.second ++ str " +0000"

/-- `strftime("%d/%m/%Y")` — the card publication date (line 286). -/
def fmtDateFr (t : PyDateTime) : List Char :=
  pad2 t.day ++ str "/" ++ pad2 t.month ++ str "/" ++ pad4 t.year

/-- One step of `re.sub(r"<[^>]+>", " ", s)`: at a `<`, the match extends to
the first `>` provided at least one character stands in between. -/
def tagEnd (t : List Char) : Option Nat :=
  match t.findIdx? (fun c => c == '>') with
  | none => none
  | some j => if 1 ≤ j then some j else none

/-- `re.sub(r"<[^>]+>", " ", s)` (fuel-indexed worker): each tag-shaped span
is replaced by one space, scanning left to right. -/
def stripTagsF : Nat → List Char → List Char
  | 0, s => s
  | _ + 1, [] => []
  | f + 1, c :: t =>
    if c = '<' then
      match tagEnd t with
      | some k => ' ' :: stripTagsF f (t.drop (k + 1))
      | none => c :: stripTagsF f t
    else c :: stripTagsF f t

/-- `re.sub(r"<[^>]+>", " ", s)`. -/
def stripTags (s : List Char) : List Char := stripTagsF s.length s

/-- `_html_to_text` (lines 271-272): drop tags, turn newlines into spaces,
strip both ends. -/
def html_to_text (s : List Char) : List Char :=
  pyStrip (pyReplace (stripTags s) (str "\n") (str " "))

/-- `re.sub(r"\s+", " ", txt)` (fuel-indexed worker): every maximal
whitespace run becomes a single space. -/
def collapseWsF : Nat → List Char → List Char
  | 0, s => s
  | _ + 1, [] => []
  | f + 1, c :: t =>
    if pyIsSpace c then ' ' :: collapseWsF f ((c :: t).dropWhile pyIsSpace)
    else c :: collapseWsF f t

/-- `re.sub(r"\s+", " ", txt)`. -/
def collapseWs (s : List Char) : List Char := collapseWsF s.length s

/-- Python `txt.rfind(" ", 0, e)`: highest index of a space below `e`, as an
integer, `-1` when there is none. -/
def pyRfindSpace (s : List Char) (e : Nat) : Int :=
  match (s.take e).reverse.findIdx? (fun c => c == ' ') with
  | none => -1
  | some i => ((s.take e).length - 1 - i : Nat)

/-- `_make_excerpt` (lines 274-281). -/
def make_excerpt (desc : List Char) (max_len min_len : Nat) : List Char :=
  let txt := collapseWs (html_to_text desc)
  if txt.length ≤ max_len then txt
  else
    let cut : Int := pyRfindSpace txt max_len
    let cut : Int := if cut < (min_len : Int) then (max_len : Int) else cut
    pyStrip (txt.take cut.toNat)

/-- Python runtime errors the assembler can raise: a missing dict key
(`data["..."]`, `it["..."]`) or a missing list index (`conseils[0]`). -/
inductive PyErr where
  | keyError
  | indexError
deriving DecidableEq

/-- `d["k"]`: a missing key raises `KeyError`. -/
def getKey {α : Type} : Option α → Except PyErr α
  | some a => .ok a
  | none => .error .keyError

/-- `l[i]`: a missing index raises `IndexError`. -/
def getItem {α : Type} (l : List α) (i : Nat) : Except PyErr α :=
  match l.get? i with
  | some a => .ok a
  | none => .error .indexError

/-- One entry of `ingredients_items`.  A key can be absent (Python dicts);
quantities are modelled as integers (the script only normalizes the display
of integral floats, which is outside the claims). -/
structure IngItem where
  nom : Option (List Char)
  unite : Option (List Char)
  pour_2 : Option Int
  pour_3 : Option Int
  pour_4 : Option Int

/-- The structured recipe record (the JSON object handed to the assembler).
Each field can be absent, as in a Python dict. -/
structure RecipeData where
  titre : Option (List Char)
  description : Option (List Char)
  duree_preparation : Option (List Char)
  duree_preparation_iso : Option (List Char)
  etapes : Option (List (List Char))
  ingredients_items : Option (List IngItem)
  astuce : Option (List Char)
  conseils : Option (List (List Char))

/-- Python `sep.join(l)`. -/
def joinSep (sep : List Char) : List (List Char) → List Char
  | [] => []
  | [x] => x
  | x :: y :: t => x ++ sep ++ joinSep sep (y :: t)

/-- `fmt` (lines 221-228): pretty quantity text for one ingredient line.
Python truthiness: a quantity counts when nonzero, a unit when nonempty. -/
def fmt (q : Int) (u n : List Char) : List Char :=
  if u ≠ [] then
    if q ≠ 0 then intStr q ++ str " " ++ u ++ str " — " ++ n else n
  else
    if q ≠ 0 then intStr q ++ str " — " ++ n else n

/-- One rendered step block (line 216). -/
def stepBlock (e : List Char) : List Char :=
  str "<div class=\"step\"><p>" ++ e ++ str "</p></div>"

/-- `etapes_html` (line 216). -/
def etapesHtml (etapes : List (List Char)) : List Char :=
  joinSep (str "\n") (etapes.map stepBlock)

/-- One `<li>` line (lines 230-232); the dict accesses follow the source
order `it["pour_n"]`, `it.get("unite","")`, `it["nom"]`. -/
def liOf (getQ : IngItem → Option Int) (it : IngItem) : Except PyErr (List Char) := do
  let q ← getKey (getQ it)
  let u := it.unite.getD []
  let n ← getKey it.nom
  pure (str "<li>" ++ fmt q u n ++ str "</li>")

/-- One HowTo step of the SEO schema (lines 241-243). -/
def schemaStep (e : List Char) : List Char :=
  str "\x7b\"@type\":\"HowToStep\",\"text\":\"" ++ e ++ str "\"\x7d"

/-- The thirteen template placeholders (lines 246-258). -/
def phTitre : List Char := str "\x7b\x7bTITRE_RECETTE\x7d\x7d"

def phDescription : List Char := str "\x7b\x7bDESCRIPTION_RECETTE\x7d\x7d"

def phImage : List Char := str "\x7b\x7bIMAGE_RECETTE\x7d\x7d"

def phDuree : List Char := str "\x7b\x7bDUREE_PREPARATION\x7d\x7d"

def phDureeIso : List Char := str "\x7b\x7bDUREE_PREPARATION_ISO\x7d\x7d"

def phEtapes : List Char := str "\x7b\x7bETAPES_HTML\x7d\x7d"

def phIng2 : List Char := str "\x7b\x7bINGREDIENTS_2_HTML\x7d\x7d"

def phIng3 : List Char := str "\x7b\x7bINGREDIENTS_3_HTML\x7d\x7d"

def phIng4 : List Char := str "\x7b\x7bINGREDIENTS_4_HTML\x7d\x7d"

def phAstuce : List Char := str "\x7b\x7bASTUCE\x7d\x7d"

def phConseil1 : List Char := str "\x7b\x7bCONSEIL_1\x7d\x7d"

def phConseil2 : List Char := str "\x7b\x7bCONSEIL_2\x7d\x7d"

def phSchema : List Char := str "\x7b\x7bSCHEMA_ETAPES_JSON\x7d\x7d"

/-- `generate_html_from_template` (lines 210-260), with the template text and
the image path as explicit inputs.  Dict and list accesses are sequenced in
source order, so the model raises the same first error as the script. -/
def generate_html_from_template (template : List Char) (data : RecipeData)
    (image_path : List Char) : Except PyErr (List Char) := do
  let etapes ← getKey data.etapes
  let etapes_html := etapesHtml etapes
  let items := data.ingredients_items.getD []
  let ing2 := joinSep (str "\n") (← items.mapM (liOf (fun it => it.pour_2)))
  let ing3 := joinSep (str "\n") (← items.mapM (liOf (fun it => it.pour_3)))
  let ing4 := joinSep (str "\n") (← items.mapM (liOf (fun it => it.pour_4)))
  let ingredients2 := str "<ul>" ++ ing2 ++ str "</ul>"
  let ingredients3 := str "<ul>" ++ ing3 ++ str "</ul>"
  let ingredients4 := str "<ul>" ++ ing4 ++ str "</ul>"
  let schema_etapes_json := joinSep (str ",\n        ") (etapes.map schemaStep)
  let titre ← getKey data.titre
  let html := pyReplace template phTitre titre
  let descr ← getKey data.description
  let html := pyReplace html phDescription descr
  let html := pyReplace html phImage image_path
  let duree ← getKey data.duree_preparation
  let html := pyReplace html phDuree duree
  let dureeIso ← getKey data.duree_preparation_iso
  let html := pyReplace html phDureeIso dureeIso
  let html := pyReplace html phEtapes etapes_html
  let html := pyReplace html phIng2 ingredients2
  let html := pyReplace html phIng3 ingredients3
  let html := pyReplace html phIng4 ingredients4
  let astuce ← getKey data.astuce
  let html := pyReplace html phAstuce astuce
  let conseils ← getKey data.conseils
  let c0 ← getItem conseils 0
  let html := pyReplace html phConseil1 c0
  let c1 ← getItem conseils 1
  let html := pyReplace html phConseil2 c1
  let html := pyReplace html phSchema schema_etapes_json
  pure html

/-- The feed start marker (bit-exact, line 299). -/
def feedStart : List Char := str "<!-- FEED:start -->"

/-- The feed end marker (bit-exact, line 299). -/
def feedEnd : List Char := str "<!-- FEED:end -->"

/-- The empty marker pair inserted after the `.grid` anchor (line 304). -/
def bootstrapIns : List Char := str "\n<!-- FEED:start -->\n<!-- FEED:end -->\n"

/-- `href` of the new card (line 288). -/
def hrefOf (article_file : List Char) : List Char :=
  str "articles/" ++ basename article_file

/-- Thumbnail path normalization (lines 289-291): strip leading slashes,
then force the path under `images/`. -/
def imgSrcOf (image : List Char) : List Char :=
  let i0 := image.dropWhile (fun c => c == '/')
  if (str "images/").isPrefixOf i0 then i0 else str "images/" ++ basename i0

/-- The card markup (lines 307-322), byte for byte, including the leading
newline and the indentation of the Python f-string; the final `rstrip`
of the source is applied (it strips nothing because the text ends in
`</article>`). -/
def cardHtmlOf (titre href img_src excerpt date_str stem : List Char) : List Char :=
  rstripWs
    (str "\n          <!-- card-" ++ stem ++ str " -->" ++
     str "\n          <article class=\"card\">" ++
     str "\n            <a class=\"thumb\" href=\"" ++ href ++ str "\" aria-label=\"Lire : " ++
       titre ++ str "\">" ++
     str "\n              <img src=\"" ++ img_src ++ str "\" alt=\"" ++ titre ++ str "\">" ++
     str "\n            </a>" ++
     str "\n            <div class=\"card-body\">" ++
     str "\n              <h2 class=\"title\">" ++ titre ++ str "</h2>" ++
     str "\n              <p class=\"excerpt\">" ++ excerpt ++ str "</p>" ++
     str "\n              <div class=\"meta\">" ++
     str "\n                <span class=\"badge\">Recette</span>" ++
     str "\n                <span>Publié le " ++ date_str ++ str "</span>" ++
     str "\n              </div>" ++
     str "\n              <a class=\"link\" href=\"" ++ href ++ str "\">Lire la recette</a>" ++
     str "\n            </div>" ++
     str "\n          </article>")

/-- Case-insensitive literal match; returns the rest of the text (`re.I`). -/
def litMatchCI : List Char → List Char → Option (List Char)
  | [], s => some s
  | _ :: _, [] => none
  | c :: cs, d :: ds => if lowEq c d then litMatchCI cs ds else none

/-- Case-insensitive `isPrefixOf`. -/
def isPrefixOfCI (pat s : List Char) : Bool := (litMatchCI pat s).isSome

/-- First case-insensitive occurrence of `pat` (what a lazy `[\s\S]*?`
followed by the literal `pat` matches up to). -/
def findCI (pat : List Char) : List Char → Option Nat
  | [] => if isPrefixOfCI pat [] then some 0 else none
  | c :: t => if isPrefixOfCI pat (c :: t) then some 0 else (findCI pat t).map (· + 1)

/-- Length of the leading whitespace run (what `\s*` can consume). -/
def wsRun (s : List Char) : Nat := (s.takeWhile pyIsSpace).length

/-- Fixed literals of the deduplication pattern (lines 326-329). -/
def cardLit : List Char := str "<!-- card-"

def arrowLit : List Char := str " -->"

def artLit : List Char := str "<article class=\"card\">"

def closeLit : List Char := str "</article>"

/-- `[^-]+? -->` of the deduplication pattern: consume at least one
character, extend lazily one character at a time over non-dash characters,
and stop at the first point where ` -->` matches.  Returns the consumed
length including the ` -->`. -/
def scanNonDashArrow : Nat → List Char → Option Nat
  | _, [] => none
  | k, c :: t =>
    if isPrefixOfCI arrowLit (c :: t) ∧ 1 ≤ k then some (k + arrowLit.length)
    else if c = '-' then none
    else scanNonDashArrow (k + 1) t

/-- One attempt of the deduplication pattern
`\s*<!-- card-[^-]+? -->\s*<article class="card">[\s\S]*?href="HREF"[\s\S]*?</article>`
(lines 326-329, `re.I`) at the head of `s`; returns the matched length.
Both `\s*` pieces are deterministic despite being greedy: the literal that
follows each one starts with `<`, which is not whitespace, so the literal
can only match at the exact end of the whitespace run and backtracking
inside the run can never succeed.  The two lazy `[\s\S]*?` pieces reach
exactly the first occurrence of the literal that follows them. -/
def matchCardLen (href : List Char) (s : List Char) : Option Nat :=
  let n1 := wsRun s
  match litMatchCI cardLit (s.drop n1) with
  | none => none
  | some s2 =>
    match scanNonDashArrow 0 s2 with
    | none => none
    | some k2 =>
      let s3 := s2.drop k2
      let n3 := wsRun s3
      match litMatchCI artLit (s3.drop n3) with
      | none => none
      | some s5 =>
        let hrefLit := str "href=\"" ++ href ++ str "\""
        match findCI hrefLit s5 with
        | none => none
        | some a =>
          match findCI closeLit (s5.drop (a + hrefLit.length)) with
          | none => none
          | some b =>
            some (n1 + cardLit.length + k2 + n3 + artLit.length +
                  a + hrefLit.length + b + closeLit.length)

/-- `re.sub(pattern, "", feed_block)` for the deduplication pattern
(lines 326-329): scan left to right, delete every match, continue scanning
after the deleted span.  Fuel-indexed worker; a match consumes at least the
ten characters of `<!-- card-`, so one fuel unit per character suffices. -/
def dedupSubF (href : List Char) : Nat → List Char → List Char
  | 0, s => s
  | _ + 1, [] => []
  | f + 1, c :: t =>
    match matchCardLen href (c :: t) with
    | some L => dedupSubF href f ((c :: t).drop L)
    | none => c :: dedupSubF href f t

/-- The deduplication pass of `inject` (lines 326-329). -/
def dedupCards (href s : List Char) : List Char := dedupSubF href s.length s

/-- `inject` (lines 325-331): deduplicate, then replace the first
`<!-- FEED:start -->` with itself, a newline and the new card
(`re.sub(..., count=1)` with replacement `\1\n + card_html`; the card text
produced by the script contains no backslash, so the replacement splices
literally). -/
def inject (href card block : List Char) : List Char :=
  match findSubstr feedStart (dedupCards href block) with
  | none => dedupCards href block
  | some i =>
    (dedupCards href block).take i ++ feedStart ++ str "\n" ++ card ++
      (dedupCards href block).drop (i + feedStart.length)

/-- The span matched by `<!-- FEED:start -->[\s\S]*?<!-- FEED:end -->`
(lines 333-334): the match starts at the first occurrence of the start
marker and the lazy middle stops at the first end marker after it.  When the
first start marker has no end marker after it, no later start marker has one
either, so the whole substitution is a no-op, matching the `none` case. -/
def splitFeed (s : List Char) : Option (List Char × List Char × List Char) :=
  match findSubstr feedStart s with
  | none => none
  | some i =>
    match findSubstr feedEnd (s.drop (i + feedStart.length)) with
    | none => none
    | some k =>
      some (s.take i, (s.drop (i + feedStart.length)).take k,
            (s.drop (i + feedStart.length)).drop (k + feedEnd.length))

/-- Word-boundary-aware matcher for the `.grid` anchor pattern
`<div[^>]*class=["'][^"']*\bgrid\b[^"']*["'][^>]*>` (line 300, `re.I`) at
the head of `s`; returns the matched length (`m.end()` relative to the
attempt position).  The two greedy pieces with several viable lengths
(`[^>]*` before `class=` and `[^"']*` before `grid`) are tried longest
first, as the backtracking engine does; the final `[^"']*["']` and `[^>]*>`
pieces are deterministic because the star cannot cross the character that
must follow it. -/
def quoteChar (c : Char) : Bool := c == '"' || c == Char.ofNat 39

def notGtRun (s : List Char) : Nat := (s.takeWhile (fun c => c != '>')).length

def notQuoteRun (s : List Char) : Nat := (s.takeWhile (fun c => !(quoteChar c))).length

def matchGridAt (s : List Char) : Option Nat :=
  match litMatchCI (str "<div") s with
  | none => none
  | some s0 =>
    (List.range (notGtRun s0 + 1)).reverse.findSome? fun a =>
      match litMatchCI (str "class=") (s0.drop a) with
      | none => none
      | some s1 =>
        match s1 with
        | [] => none
        | q1 :: s2 =>
          if quoteChar q1 then
            (List.range (notQuoteRun s2 + 1)).reverse.findSome? fun b =>
              let prev := if b = 0 then some q1 else (s2.take b).getLast?
              if prev.all (fun c => !(isWordChar c)) then
                match litMatchCI (str "grid") (s2.drop b) with
                | none => none
                | some s3 =>
                  if s3.head?.all (fun c => !(isWordChar c)) then
                    let r2 := notQuoteRun s3
                    match s3.drop r2 with
                    | [] => none
                    | q2 :: s5 =>
                      if quoteChar q2 then
                        let r3 := notGtRun s5
                        match s5.drop r3 with
                        | [] => none
                        | g :: _ =>
                          if g = '>' then
                            some (4 + a + 6 + 1 + b + 4 + r2 + 1 + r3 + 1)
                          else none
                      else none
                  else none
              else none
          else none

/-- `re.search` for the `.grid` anchor: leftmost attempt position that
matches; returns `m.end()` (the insertion point of the bootstrap, line
303). -/
def findGridEndGo : Nat → List Char → Option Nat
  | _, [] => none
  | off, c :: t =>
    match matchGridAt (c :: t) with
    | some L => some (off + L)
    | none => findGridEndGo (off + 1) t

/-- `m.end()` of `re.search(r"<div[^>]*class=[...]grid[...]>", idx)`. -/
def findGridEnd (s : List Char) : Option Nat := findGridEndGo 0 s

/-- The audit trailer appended at line 338
(`"\n<!-- automated-build " + stamp + " -->\n"`). -/
def stampLine (utcnow : PyDateTime) : List Char :=
  str "\n<!-- automated-build " ++ fmtUtcStamp utcnow ++ str " -->\n"

/-- The `SystemExit` raised when neither the feed markers nor the `.grid`
anchor can be found (line 302); the spec calls it `StructureError`. -/
inductive StructureError where
  | noGridAnchor
deriving DecidableEq

/-- The card built by one `update_index` run (lines 286-293 and 307-322
collected: `href`, `img_src`, `excerpt` and `date_str` substituted into the
card f-string). -/
def cardOf (titre desc image article_file : List Char) (now : PyDateTime) : List Char :=
  cardHtmlOf titre (hrefOf article_file) (imgSrcOf image) (make_excerpt desc 160 150)
    (fmtDateFr now) (stemOf (basename article_file))

/-- The single `re.sub(..., lambda m: inject(m.group(0)), idx_html, count=1)`
of lines 333-334: replace the first marker-delimited span by its injected
form; when the pattern does not match, the document is unchanged. -/
def injectIntoIndex (href card idx1 : List Char) : List Char :=
  match splitFeed idx1 with
  | none => idx1
  | some (pre, mid, post) =>
    pre ++ inject href card (feedStart ++ mid ++ feedEnd) ++ post

/-- `update_index` (lines 284-341) as a pure transformer of the text of
`index.html`.  The two clock reads (`datetime.now()` for the card date and
`datetime.now(timezone.utc)` for the stamp) are explicit inputs.  Control
flow follows the source: ensure the markers exist (bootstrapping after the
`.grid` anchor, or raising `SystemExit` when that anchor is missing too),
inject the card into the marker span, append the audit stamp. -/
def update_index (titre desc image article_file : List Char)
    (now utcnow : PyDateTime) (idx0 : List Char) :
    Except StructureError (List Char) :=
  if containsSubstr feedStart idx0 = false ∨ containsSubstr feedEnd idx0 = false then
    match findGridEnd idx0 with
    | none => .error StructureError.noGridAnchor
    | some pos =>
      .ok (injectIntoIndex (hrefOf article_file) (cardOf titre desc image article_file now)
            (idx0.take pos ++ bootstrapIns ++ idx0.drop pos) ++ stampLine utcnow)
  else
    .ok (injectIntoIndex (hrefOf article_file) (cardOf titre desc image article_file now)
          idx0 ++ stampLine utcnow)

/-- The text stored in `index.html` after a run: the script writes the file
only at line 340, after all computation, so a `SystemExit` leaves the stored
document untouched. -/
def finalIndexFile (titre desc image article_file : List Char)
    (now utcnow : PyDateTime) (idx0 : List Char) : List Char :=
  match update_index titre desc image article_file now utcnow idx0 with
  | .ok s => s
  | .error _ => idx0

/-- The opening text of one rendered step block, used to count blocks. -/
def stepOpen : List Char := str "<div class=\"step\">"

/-- The opening text of one rendered list item, used to count items. -/
def liOpen : List Char := str "<li>"

/-- No two adjacent whitespace characters (the collapsed-text invariant). -/
def noWsPair : List Char → Prop
  | [] => True
  | [_] => True
  | a :: b :: t => ¬ (pyIsSpace a = true ∧ pyIsSpace b = true) ∧ noWsPair (b :: t)

/-- Sample clock values for concrete runs. -/
def dtSample : PyDateTime := ⟨2025, 8, 17, 0, 0, 0⟩

def utSample : PyDateTime := ⟨2025, 8, 17, 10, 0, 0⟩

/-- A well-formed index document that contains the marker pair. -/
def idxSample : List Char :=
  str "<html><body><div class=\"grid\">\n<!-- FEED:start -->\n<!-- FEED:end -->\n</div></body></html>"

/-- An index document with no markers but with a `.grid` container. -/
def noMarkersDoc : List Char :=
  str "<html><body><div class=\"grid\"><p>x</p></div></body></html>"

/-- An index document with neither markers nor a `.grid` container. -/
def noGridDoc : List Char := str "<p>hi</p>"

/-- A complete sample recipe record. -/
def sampleItems : List IngItem :=
  [⟨some (str "Riz"), some (str "g"), some 150, some 225, some 300⟩]

def sampleRecipe : RecipeData :=
  ⟨some (str "Nouilles"), some (str "Desc"), some (str "25 min"), some (str "PT25M"),
   some [str "E1", str "E2"], some sampleItems, some (str "Astuce"),
   some [str "C1", str "C2"]⟩

/-- The same record with the `ingredients_items` key absent. -/
def sampleRecipeNoItems : RecipeData :=
  { sampleRecipe with ingredients_items := none }

theorem findSubstr_some_isPrefix {pat s : List Char} {i : Nat}
    (h : findSubstr pat s = some i) : pat <+: s.drop i := by
  induction s generalizing i with
  | nil =>
    rw [findSubstr] at h
    by_cases hp : pat = ([] : List Char)
    · simp [hp] at h; simp [hp, ← h]
    · simp [hp] at h
  | cons c t ih =>
    rw [findSubstr] at h
    by_cases hp : pat.isPrefixOf (c :: t)
    · simp [hp] at h
      simpa [← h] using List.isPrefixOf_iff_prefix.mp hp
    · simp [hp] at h
      obtain ⟨j, hj, rfl⟩ := h
      simpa using ih hj

theorem findSubstr_none {pat s : List Char} (h : findSubstr pat s = none) :
    ∀ i, ¬ pat <+: s.drop i := by
  induction s with
  | nil =>
    rw [findSubstr] at h
    by_cases hp : pat = ([] : List Char)
    · simp [hp] at h
    · intro i hpre
      exact hp (List.prefix_nil.mp (by simpa using hpre))
  | cons c t ih =>
    rw [findSubstr] at h
    by_cases hp : pat.isPrefixOf (c :: t)
    · simp [hp] at h
    · simp [hp] at h
      intro i
      cases i with
      | zero =>
        intro hpre
        exact hp (List.isPrefixOf_iff_prefix.mpr (by simpa using hpre))
      | succ j => simpa using ih h j

theorem prefix_decomp {pat z : List Char} (h : pat <+: z) :
    z = pat ++ z.drop pat.length := by
  conv_lhs => rw [← List.take_append_drop pat.length z]
  rw [← List.prefix_iff_eq_take.mp h]

theorem findSubstr_decomp {pat s : List Char} {i : Nat}
    (h : findSubstr pat s = some i) :
    s = s.take i ++ pat ++ s.drop (i + pat.length) := by
  have hp := findSubstr_some_isPrefix h
  have hd := prefix_decomp hp
  conv_lhs => rw [← List.take_append_drop i s]
  rw [hd, List.drop_drop, List.append_assoc]

theorem containsSubstr_of_prefix_drop {pat s : List Char} {i : Nat}
    (h : pat <+: s.drop i) : containsSubstr pat s = true := by
  unfold containsSubstr
  cases hf : findSubstr pat s with
  | none => exact absurd h (findSubstr_none hf i)
  | some j => rfl

theorem containsSubstr_append_left {pat a : List Char} (b : List Char)
    (h : containsSubstr pat a = true) : containsSubstr pat (a ++ b) = true := by
  unfold containsSubstr at h
  cases hf : findSubstr pat a with
  | none => rw [hf] at h; simp at h
  | some i =>
    have hp := findSubstr_some_isPrefix hf
    by_cases hi : i ≤ a.length
    · exact containsSubstr_of_prefix_drop (i := i)
        (by rw [List.drop_append_of_le_length hi]
            exact hp.trans (List.prefix_append _ _))
    · have : a.drop i = [] := List.drop_eq_nil_of_le (Nat.le_of_lt (Nat.lt_of_not_le hi))
      rw [this] at hp
      have : pat = [] := List.prefix_nil.mp hp
      exact containsSubstr_of_prefix_drop (i := 0) (by simp [this])

theorem splitFeed_decomp {s pre mid post : List Char}
    (h : splitFeed s = some (pre, mid, post)) :
    s = pre ++ feedStart ++ mid ++ feedEnd ++ post := by
  unfold splitFeed at h
  split at h
  · simp at h
  next i hf =>
    split at h
    · simp at h
    next k hg =>
      simp only [Option.some.injEq, Prod.mk.injEq] at h
      obtain ⟨rfl, rfl, rfl⟩ := h
      have h1 := findSubstr_decomp hf
      have h2 := findSubstr_decomp hg
      conv_lhs => rw [h1, h2]
      simp [List.append_assoc]

theorem splitFeed_contains {s pre mid post : List Char}
    (h : splitFeed s = some (pre, mid, post)) :
    containsSubstr feedStart s = true ∧ containsSubstr feedEnd s = true := by
  unfold splitFeed at h
  split at h
  · simp at h
  next i hf =>
    split at h
    · simp at h
    next k hg =>
      refine ⟨containsSubstr_of_prefix_drop (findSubstr_some_isPrefix hf), ?_⟩
      have hp := findSubstr_some_isPrefix hg
      rw [List.drop_drop] at hp
      exact containsSubstr_of_prefix_drop hp

theorem dedupCards_feedStart (href r : List Char) :
    dedupCards href (feedStart ++ r) = feedStart ++ dedupCards href r := rfl

theorem findSubstr_of_isPrefix {pat s : List Char} (h : pat <+: s) :
    findSubstr pat s = some 0 := by
  cases s with
  | nil =>
    have hp : pat = [] := List.prefix_nil.mp h
    simp [findSubstr, hp]
  | cons c t =>
    rw [findSubstr, if_pos (List.isPrefixOf_iff_prefix.mpr h)]

theorem inject_marker_block (href card r : List Char) :
    inject href card (feedStart ++ r) =
      feedStart ++ str "\n" ++ card ++ dedupCards href r := by
  unfold inject
  rw [dedupCards_feedStart, findSubstr_of_isPrefix (List.prefix_append _ _)]
  simp [List.drop_left, List.append_assoc]

theorem update_index_ok (titre desc image af : List Char) (now utc : PyDateTime)
    {idx pre mid post : List Char}
    (h : splitFeed idx = some (pre, mid, post)) :
    update_index titre desc image af now utc idx =
      .ok (pre ++ feedStart ++ str "\n" ++ cardOf titre desc image af now ++
           dedupCards (hrefOf af) (mid ++ feedEnd) ++ post ++ stampLine utc) := by
  obtain ⟨h1, h2⟩ := splitFeed_contains h
  unfold update_index injectIntoIndex
  rw [if_neg (by simp [h1, h2]), h]
  dsimp only
  rw [List.append_assoc feedStart mid feedEnd, inject_marker_block]
  simp [List.append_assoc]

/-- C10: for every image path handed to the injector, the thumbnail `src`
always begins with `images/` (hence never with `/`); leading slashes are
stripped, and a path not already under `images/` is rewritten to `images/`
plus its final path segment. -/
theorem c10_thumbnail_path (image : List Char) :
    (str "images/") <+: imgSrcOf image ∧
    ¬ (str "/") <+: imgSrcOf image ∧
    (¬ (str "images/") <+: image.dropWhile (fun c => c == '/') →
      imgSrcOf image = str "images/" ++ basename (image.dropWhile (fun c => c == '/'))) := by
  have headclash : ∀ z : List Char, ¬ (str "/") <+: (str "images/" ++ z) := by
    intro z h
    obtain ⟨t, ht⟩ := h
    have hh := congrArg List.head? ht
    simp [str] at hh
  unfold imgSrcOf
  by_cases hp : (str "images/").isPrefixOf (image.dropWhile (fun c => c == '/'))
  · rw [if_pos hp]
    have h := List.isPrefixOf_iff_prefix.mp hp
    refine ⟨h, ?_, fun hn => absurd h hn⟩
    rw [prefix_decomp h]
    exact headclash _
  · rw [if_neg hp]
    exact ⟨List.prefix_append _ _, headclash _, fun _ => rfl⟩

/-- C7: injection is atomic: when `update_index` fails, the stored index
text is unchanged, and the failure happens exactly in the state where a
marker is missing and no `.grid` anchor exists (the `SystemExit` is raised
before the file is ever opened for writing, line 302 versus line 340). -/
theorem c7_injection_atomic (titre desc image af : List Char) (now utc : PyDateTime)
    (idx : List Char) (e : StructureError)
    (h : update_index titre desc image af now utc idx = .error e) :
    finalIndexFile titre desc image af now utc idx = idx ∧
    (containsSubstr feedStart idx = false ∨ containsSubstr feedEnd idx = false) ∧
    findGridEnd idx = none := by
  have key : (containsSubstr feedStart idx = false ∨ containsSubstr feedEnd idx = false) ∧
      findGridEnd idx = none := by
    unfold update_index at h
    by_cases hc : containsSubstr feedStart idx = false ∨ containsSubstr feedEnd idx = false
    · rw [if_pos hc] at h
      cases hg : findGridEnd idx with
      | none => exact ⟨hc, rfl⟩
      | some pos => rw [hg] at h; simp at h
    · rw [if_neg hc] at h; simp at h
  exact ⟨by unfold finalIndexFile; rw [h], key.1, key.2⟩

/-- Witness for C7 at a concrete document with neither markers nor grid. -/
theorem c7_injection_atomic_witness :
    finalIndexFile (str "A") (str "B") (str "c.jpg") (str "d.html") dtSample utSample
      noGridDoc = noGridDoc := by
  have h : update_index (str "A") (str "B") (str "c.jpg") (str "d.html") dtSample utSample
      noGridDoc = .error StructureError.noGridAnchor := by rfl
  exact (c7_injection_atomic _ _ _ _ _ _ _ _ h).1

/-- C3: on a document containing the marker pair, injection only rewrites
the marker-delimited span and appends the audit trailer: the bytes before
the start marker and after the end marker reappear unchanged around the new
span contents. -/
theorem c3_frame_preservation (titre desc image af : List Char) (now utc : PyDateTime)
    {idx pre mid post : List Char}
    (h : splitFeed idx = some (pre, mid, post)) :
    idx = pre ++ (feedStart ++ mid ++ feedEnd) ++ post ∧
    update_index titre desc image af now utc idx =
      .ok (pre ++ (feedStart ++ str "\n" ++ cardOf titre desc image af now ++
            dedupCards (hrefOf af) (mid ++ feedEnd)) ++ post ++ stampLine utc) := by
  constructor
  · simpa [List.append_assoc] using splitFeed_decomp h
  · rw [update_index_ok titre desc image af now utc h]
    simp [List.append_assoc]

/-- Witness for C3 at the sample index document. -/
theorem c3_frame_preservation_witness :
    idxSample = (str "<html><body><div class=\"grid\">\n") ++
      (feedStart ++ (str "\n") ++ feedEnd) ++ (str "\n</div></body></html>") ∧
    update_index (str "Pho") (str "Soupe") (str "/images/1-p.jpg") (str "1-p.html")
        dtSample utSample idxSample =
      .ok ((str "<html><body><div class=\"grid\">\n") ++
        (feedStart ++ str "\n" ++
          cardOf (str "Pho") (str "Soupe") (str "/images/1-p.jpg") (str "1-p.html") dtSample ++
          dedupCards (hrefOf (str "1-p.html")) ((str "\n") ++ feedEnd)) ++
        (str "\n</div></body></html>") ++ stampLine utSample) :=
  c3_frame_preservation (str "Pho") (str "Soupe") (str "/images/1-p.jpg") (str "1-p.html")
    dtSample utSample (by decide)

theorem prefix_append_left {pat x y : List Char} (h : pat <+: x ++ y)
    (hl : pat.length ≤ x.length) : pat <+: x := by
  have he := List.prefix_iff_eq_take.mp h
  rw [List.take_append_of_le_length hl] at he
  exact he ▸ List.take_prefix _ _

theorem mem_of_prefix_append_cons {pat x y : List Char} {c : Char}
    (h : pat <+: x ++ c :: y) (hl : x.length < pat.length) : c ∈ pat := by
  have hxb : x.length < (x ++ c :: y).length := Nat.lt_of_lt_of_le hl h.length_le
  have hg := h.getElem hl
  have hr : (x ++ c :: y)[x.length] = c := by
    rw [List.getElem_append_right (Nat.le_refl _)]
    simp
  rw [hr] at hg
  exact hg ▸ List.getElem_mem _

theorem containsSubstr_cons_false {pat a' : List Char} {x : Char}
    (h : containsSubstr pat (x :: a') = false) :
    containsSubstr pat a' = false ∧ pat.isPrefixOf (x :: a') = false := by
  unfold containsSubstr at *
  rw [findSubstr] at h
  by_cases hp : pat.isPrefixOf (x :: a')
  · rw [if_pos hp] at h; simp at h
  · rw [if_neg hp] at h
    refine ⟨?_, by
      cases hb : pat.isPrefixOf (x :: a') with
      | false => rfl
      | true => exact absurd hb hp⟩
    cases hf : findSubstr pat a' with
    | none => rfl
    | some j => rw [hf] at h; simp at h

theorem nomatch_prefix_of_not_contains {pat a r : List Char} {c : Char}
    (hnc : containsSubstr pat a = false) (hcm : c ∉ pat) :
    ¬ pat.isPrefixOf (a ++ c :: r) := by
  intro hp
  have h := List.isPrefixOf_iff_prefix.mp hp
  by_cases hl : pat.length ≤ a.length
  · have hpa := prefix_append_left h hl
    have hc := containsSubstr_of_prefix_drop (i := 0) (s := a) (by simpa using hpa)
    rw [hc] at hnc
    cases hnc
  · exact hcm (mem_of_prefix_append_cons h (Nat.lt_of_not_le hl))

theorem findSubstr_append_cons {pat a r : List Char} {c : Char}
    (hnc : containsSubstr pat a = false) (hcm : c ∉ pat)
    (hpre : pat <+: r) :
    findSubstr pat (a ++ c :: r) = some (a.length + 1) := by
  induction a with
  | nil =>
    rw [List.nil_append, findSubstr,
      if_neg (by simpa using nomatch_prefix_of_not_contains (a := []) hnc hcm (r := r))]
    rw [findSubstr_of_isPrefix hpre]
    rfl
  | cons x a' ih =>
    obtain ⟨h1, _⟩ := containsSubstr_cons_false hnc
    rw [List.cons_append, findSubstr,
      if_neg (by simpa using nomatch_prefix_of_not_contains (a := x :: a') hnc hcm (r := r))]
    rw [ih h1]
    rfl

/-- C4: on a document that lacks the marker pair, `update_index` first
inserts an empty marker pair immediately after the end of the `.grid`
anchor match and then injects the card between the fresh markers; when the
anchor cannot be found either, the run aborts with the `SystemExit` the
spec calls `StructureError`. -/
theorem c4_bootstrap (titre desc image af : List Char) (now utc : PyDateTime)
    (idx : List Char)
    (hs : containsSubstr feedStart idx = false)
    (_hend : containsSubstr feedEnd idx = false) :
    (∀ pos, findGridEnd idx = some pos →
      update_index titre desc image af now utc idx =
        .ok (idx.take pos ++ str "\n" ++ feedStart ++ str "\n" ++
             cardOf titre desc image af now ++ str "\n" ++ feedEnd ++ str "\n" ++
             idx.drop pos ++ stampLine utc)) ∧
    (findGridEnd idx = none →
      update_index titre desc image af now utc idx = .error StructureError.noGridAnchor) := by
  constructor
  · intro pos hg
    have hA : containsSubstr feedStart (idx.take pos) = false := by
      cases h' : containsSubstr feedStart (idx.take pos) with
      | false => rfl
      | true =>
        have h2 := containsSubstr_append_left (idx.drop pos) h'
        rw [List.take_append_drop] at h2
        rw [h2] at hs
        cases hs
    have hshape : idx.take pos ++ bootstrapIns ++ idx.drop pos =
        idx.take pos ++
          '\n' :: (feedStart ++ '\n' :: (feedEnd ++ '\n' :: idx.drop pos)) := by
      rw [List.append_assoc]
      rfl
    have hfs : findSubstr feedStart
        (idx.take pos ++
          '\n' :: (feedStart ++ '\n' :: (feedEnd ++ '\n' :: idx.drop pos))) =
        some ((idx.take pos).length + 1) :=
      findSubstr_append_cons hA (by decide) (List.prefix_append _ _)
    have hdrop : (idx.take pos ++
        '\n' :: (feedStart ++ '\n' :: (feedEnd ++ '\n' :: idx.drop pos))).drop
          ((idx.take pos).length + 1 + feedStart.length) =
        '\n' :: (feedEnd ++ '\n' :: idx.drop pos) := by
      rw [show idx.take pos ++
            '\n' :: (feedStart ++ '\n' :: (feedEnd ++ '\n' :: idx.drop pos)) =
          (idx.take pos ++ '\n' :: feedStart) ++
            ('\n' :: (feedEnd ++ '\n' :: idx.drop pos)) by
        simp [List.append_assoc]]
      exact List.drop_left' (by simp [List.length_append]; omega)
    have hfe : findSubstr feedEnd ('\n' :: (feedEnd ++ '\n' :: idx.drop pos)) = some 1 := by
      have := @findSubstr_append_cons feedEnd [] (feedEnd ++ '\n' :: idx.drop pos)
        '\n' (by decide) (by decide) (List.prefix_append _ _)
      simpa using this
    have hsplit : splitFeed (idx.take pos ++ bootstrapIns ++ idx.drop pos) =
        some (idx.take pos ++ str "\n", str "\n", str "\n" ++ idx.drop pos) := by
      rw [hshape]
      unfold splitFeed
      rw [hfs]
      dsimp only
      rw [hdrop, hfe]
      dsimp only
      refine congrArg some ?_
      refine Prod.ext ?_ (Prod.ext ?_ ?_)
      · show (idx.take pos ++
            '\n' :: (feedStart ++ '\n' :: (feedEnd ++ '\n' :: idx.drop pos))).take
              ((idx.take pos).length + 1) = idx.take pos ++ str "\n"
        rw [show idx.take pos ++
              '\n' :: (feedStart ++ '\n' :: (feedEnd ++ '\n' :: idx.drop pos)) =
            (idx.take pos ++ ['\n']) ++
              (feedStart ++ '\n' :: (feedEnd ++ '\n' :: idx.drop pos)) by
          simp [List.append_assoc]]
        exact List.take_left' (by simp)
      · rfl
      · rfl
    unfold update_index
    rw [if_pos (Or.inl hs), hg]
    dsimp only
    unfold injectIntoIndex
    rw [hsplit]
    dsimp only
    rw [show feedStart ++ str "\n" ++ feedEnd = feedStart ++ (str "\n" ++ feedEnd) from
      List.append_assoc _ _ _]
    rw [inject_marker_block]
    rw [show dedupCards (hrefOf af) (str "\n" ++ feedEnd) = str "\n" ++ feedEnd from rfl]
    refine congrArg Except.ok ?_
    simp [cardOf, List.append_assoc]
  · intro hg
    unfold update_index
    rw [if_pos (Or.inl hs), hg]

/-- Witness for C4 at a concrete marker-less document whose `.grid` anchor
match ends at position 30. -/
theorem c4_bootstrap_witness :
    update_index (str "A") (str "B") (str "i.jpg") (str "1-a.html") dtSample utSample
        noMarkersDoc =
      .ok (noMarkersDoc.take 30 ++ str "\n" ++ feedStart ++ str "\n" ++
           cardOf (str "A") (str "B") (str "i.jpg") (str "1-a.html") dtSample ++
           str "\n" ++ feedEnd ++ str "\n" ++ noMarkersDoc.drop 30 ++ stampLine utSample) :=
  (c4_bootstrap (str "A") (str "B") (str "i.jpg") (str "1-a.html") dtSample utSample
    noMarkersDoc (by decide) (by decide)).1 30 (by decide)

/-- C1 is violated by the code: the deduplication pattern requires the text
between `<!-- card-` and ` -->` to contain no dash (`[^-]+?`), but every card
comment written by the script embeds the date-prefixed article stem, which
contains dashes.  The pass therefore never matches an existing card, and
re-injecting the same article leaves two cards for the same reference: after
one run the sample index holds one card comment for `1-p.html`, after a
second identical run it holds two, and the article href likewise appears
twice as a thumbnail link. -/
theorem c1_duplicate_after_reinjection :
    countOcc (str "<!-- card-1-p -->")
      (finalIndexFile (str "Pho") (str "Soupe") (str "/images/1-p.jpg") (str "1-p.html")
        dtSample utSample idxSample) = 1 ∧
    countOcc (str "<!-- card-1-p -->")
      (finalIndexFile (str "Pho") (str "Soupe") (str "/images/1-p.jpg") (str "1-p.html")
        dtSample utSample
        (finalIndexFile (str "Pho") (str "Soupe") (str "/images/1-p.jpg") (str "1-p.html")
          dtSample utSample idxSample)) = 2 ∧
    countOcc (str "<a class=\"thumb\" href=\"articles/1-p.html\"")
      (finalIndexFile (str "Pho") (str "Soupe") (str "/images/1-p.jpg") (str "1-p.html")
        dtSample utSample
        (finalIndexFile (str "Pho") (str "Soupe") (str "/images/1-p.jpg") (str "1-p.html")
          dtSample utSample idxSample)) = 2 := by
  refine ⟨?_, ?_, ?_⟩ <;> rfl

/-- C2: the serialized card is inserted immediately after the first
`<!-- FEED:start -->` of the (deduplicated) block, so injecting card A and
then card B leaves B right after the start marker and before A, and the rest
of the block (`mid`, the older fragments) reappears unchanged after A.  The
two hypotheses state that the deduplication pass removes nothing, which is
how the pass behaves when the injected references are distinct from every
reference present in the block (each pass only targets its own `href`). -/
theorem c2_newest_first (hrefA hrefB cardA cardB mid : List Char)
    (hA : dedupCards hrefA (mid ++ feedEnd) = mid ++ feedEnd)
    (hB : dedupCards hrefB (str "\n" ++ cardA ++ (mid ++ feedEnd)) =
      str "\n" ++ cardA ++ (mid ++ feedEnd)) :
    inject hrefB cardB (inject hrefA cardA (feedStart ++ (mid ++ feedEnd))) =
      feedStart ++ str "\n" ++ cardB ++ (str "\n" ++ cardA ++ (mid ++ feedEnd)) := by
  rw [inject_marker_block, hA]
  have hre : feedStart ++ str "\n" ++ cardA ++ (mid ++ feedEnd) =
      feedStart ++ (str "\n" ++ cardA ++ (mid ++ feedEnd)) := by
    simp [List.append_assoc]
  rw [hre, inject_marker_block, hB]

/-- Witness for C2: two concrete cards injected into the sample feed block,
with the deduplication hypotheses checked by evaluation. -/
theorem c2_newest_first_witness :
    inject (hrefOf (str "1-b.html")) (cardOf (str "B") (str "b") (str "/images/1-b.jpg") (str "1-b.html") dtSample)
      (inject (hrefOf (str "1-a.html")) (cardOf (str "A") (str "a") (str "/images/1-a.jpg") (str "1-a.html") dtSample)
        (feedStart ++ (str "\n" ++ feedEnd))) =
      feedStart ++ str "\n" ++
        cardOf (str "B") (str "b") (str "/images/1-b.jpg") (str "1-b.html") dtSample ++
        (str "\n" ++
          cardOf (str "A") (str "a") (str "/images/1-a.jpg") (str "1-a.html") dtSample ++
          (str "\n" ++ feedEnd)) :=
  c2_newest_first _ _ _ _ (str "\n") (by rfl) (by rfl)

theorem digitChar_bounds (n : Nat) : '0' ≤ digitChar n ∧ digitChar n ≤ '9' := by
  unfold digitChar
  have h : n % 10 < 10 := Nat.mod_lt _ (by norm_num)
  set k := n % 10 with hk
  interval_cases k <;> exact ⟨by decide, by decide⟩

theorem natDigitsF_digits {f n : Nat} : ∀ c ∈ natDigitsF f n, '0' ≤ c ∧ c ≤ '9' := by
  induction f generalizing n with
  | zero => simp [natDigitsF]
  | succ f ih =>
    intro c hc
    rw [natDigitsF] at hc
    by_cases h : n < 10
    · rw [if_pos h] at hc
      simp at hc
      exact hc ▸ digitChar_bounds n
    · rw [if_neg h] at hc
      rcases List.mem_append.mp hc with h1 | h2
      · exact ih _ h1
      · simp at h2
        exact h2 ▸ digitChar_bounds (n % 10)

theorem padZero_digits {w : Nat} {s : List Char} (hs : ∀ c ∈ s, '0' ≤ c ∧ c ≤ '9') :
    ∀ c ∈ padZero w s, '0' ≤ c ∧ c ≤ '9' := by
  intro c hc
  rcases List.mem_append.mp hc with h | h
  · rw [List.eq_of_mem_replicate h]
    exact ⟨by decide, by decide⟩
  · exact hs c h

theorem pad2_digits (n : Nat) : ∀ c ∈ pad2 n, '0' ≤ c ∧ c ≤ '9' :=
  padZero_digits natDigitsF_digits

theorem pad4_digits (n : Nat) : ∀ c ∈ pad4 n, '0' ≤ c ∧ c ≤ '9' :=
  padZero_digits natDigitsF_digits

theorem natDigitsF_length {f n k : Nat} (hf : n < f) (hn : n < 10 ^ k) (hk : 1 ≤ k) :
    (natDigitsF f n).length ≤ k := by
  induction f generalizing n k with
  | zero => simp [natDigitsF]
  | succ f ih =>
    rw [natDigitsF]
    by_cases h : n < 10
    · rw [if_pos h]; simpa using hk
    · rw [if_neg h]
      have hk2 : 2 ≤ k := by
        by_contra hlt
        have hk1 : k = 1 := by omega
        rw [hk1] at hn
        simp at hn
        omega
      have hdiv : n / 10 < 10 ^ (k - 1) := by
        rw [Nat.div_lt_iff_lt_mul (by norm_num)]
        calc n < 10 ^ k := hn
          _ = 10 ^ (k - 1) * 10 := by
            rw [← Nat.pow_succ]
            congr 1
            omega
      have hfd : n / 10 < f := by
        have h1 : n / 10 < n := Nat.div_lt_self (by omega) (by norm_num)
        omega
      have := ih hfd hdiv (by omega)
      simp [List.length_append]
      omega

theorem natStr_length {n k : Nat} (hn : n < 10 ^ k) (hk : 1 ≤ k) :
    (natStr n).length ≤ k :=
  natDigitsF_length (Nat.lt_succ_self n) hn hk

theorem padZero_length {w : Nat} {s : List Char} (h : s.length ≤ w) :
    (padZero w s).length = w := by
  simp [padZero]
  omega

theorem pad2_length {n : Nat} (h : n < 100) : (pad2 n).length = 2 :=
  padZero_length (natStr_length (k := 2) (by simpa using h) (by norm_num))

theorem pad4_length {n : Nat} (h : n < 10000) : (pad4 n).length = 4 :=
  padZero_length (natStr_length (k := 4) (by simpa using h) (by norm_num))

/-- C9: every successful run appends exactly the one-line audit trailer at
the very end of the document; the trailer is the fixed label plus a
timestamp of shape `YYYY-MM-DD HH:MM:SS +0000` (twenty-five characters,
digits at the field positions, no newline inside the comment line); and
stamps from earlier runs are never removed: two successive runs on the
sample index leave two stamps. -/
theorem c9_audit_stamp (titre desc image af : List Char) (now utc : PyDateTime)
    (idx out : List Char) (h : update_index titre desc image af now utc idx = .ok out)
    (hy : utc.year < 10000) (hmo : utc.month < 100) (hd : utc.day < 100)
    (hh : utc.hour < 100) (hmi : utc.minute < 100) (hsec : utc.second < 100) :
    (∃ body, out = body ++ stampLine utc) ∧
    stampLine utc = str "\n<!-- automated-build " ++ fmtUtcStamp utc ++ str " -->\n" ∧
    (∀ c ∈ fmtUtcStamp utc,
      ('0' ≤ c ∧ c ≤ '9') ∨ c = '-' ∨ c = ':' ∨ c = ' ' ∨ c = '+') ∧
    (∀ c ∈ fmtUtcStamp utc, c ≠ '\n') ∧
    (fmtUtcStamp utc).length = 25 ∧
    countOcc (str "<!-- automated-build ")
      (finalIndexFile (str "B") (str "b") (str "/images/1-b.jpg") (str "1-b.html")
        dtSample utSample
        (finalIndexFile (str "Pho") (str "Soupe") (str "/images/1-p.jpg") (str "1-p.html")
          dtSample utSample idxSample)) = 2 := by
  have hcls : ∀ c ∈ fmtUtcStamp utc,
      ('0' ≤ c ∧ c ≤ '9') ∨ c = '-' ∨ c = ':' ∨ c = ' ' ∨ c = '+' := by
    rw [fmtUtcStamp]
    simp only [List.forall_mem_append]
    refine ⟨⟨⟨⟨⟨⟨⟨⟨⟨⟨⟨?_, ?_⟩, ?_⟩, ?_⟩, ?_⟩, ?_⟩, ?_⟩, ?_⟩, ?_⟩, ?_⟩, ?_⟩, ?_⟩
    · exact fun c hc => Or.inl (pad4_digits utc.year c hc)
    · decide
    · exact fun c hc => Or.inl (pad2_digits utc.month c hc)
    · decide
    · exact fun c hc => Or.inl (pad2_digits utc.day c hc)
    · decide
    · exact fun c hc => Or.inl (pad2_digits utc.hour c hc)
    · decide
    · exact fun c hc => Or.inl (pad2_digits utc.minute c hc)
    · decide
    · exact fun c hc => Or.inl (pad2_digits utc.second c hc)
    · decide
  refine ⟨?_, rfl, hcls, ?_, ?_, ?_⟩
  · unfold update_index at h
    by_cases hc : containsSubstr feedStart idx = false ∨ containsSubstr feedEnd idx = false
    · rw [if_pos hc] at h
      cases hg : findGridEnd idx with
      | none => rw [hg] at h; simp at h
      | some pos =>
        rw [hg] at h
        dsimp only at h
        injection h with h2
        exact ⟨_, h2.symm⟩
    · rw [if_neg hc] at h
      injection h with h2
      exact ⟨_, h2.symm⟩
  · intro c hc
    rcases hcls c hc with ⟨h1, _⟩ | rfl | rfl | rfl | rfl
    · intro he
      subst he
      exact absurd h1 (by decide)
    all_goals decide
  · rw [fmtUtcStamp]
    simp only [List.length_append]
    rw [pad4_length hy, pad2_length hmo, pad2_length hd, pad2_length hh,
      pad2_length hmi, pad2_length hsec]
    rfl
  · rfl

/-- Witness for C9 at a concrete run on the sample index. -/
theorem c9_audit_stamp_witness :
    ∃ out, update_index (str "Pho") (str "Soupe") (str "/images/1-p.jpg") (str "1-p.html")
        dtSample utSample idxSample = .ok out ∧
      ∃ body, out = body ++ stampLine utSample := by
  refine ⟨_, rfl, ?_⟩
  exact (c9_audit_stamp (str "Pho") (str "Soupe") (str "/images/1-p.jpg") (str "1-p.html")
    dtSample utSample idxSample _ rfl (by decide) (by decide) (by decide) (by decide)
    (by decide) (by decide)).1

theorem findIdx?_some_spec {p : Char → Bool} {l : List Char} {i : Nat}
    (h : l.findIdx? p = some i) :
    (∃ c, l[i]? = some c ∧ p c = true) ∧
      ∀ j c, j < i → l[j]? = some c → p c = false := by
  induction l generalizing i with
  | nil => simp [List.findIdx?_nil] at h
  | cons x t ih =>
    have hcons : (x :: t).findIdx? p =
        if p x then some 0 else (t.findIdx? p).map (· + 1) := by
      simp [List.findIdx?_cons]
    rw [hcons] at h
    by_cases hp : p x
    · rw [if_pos hp] at h
      simp at h
      subst h
      exact ⟨⟨x, by simp, hp⟩, by omega⟩
    · rw [if_neg hp] at h
      simp only [Option.map_eq_some'] at h
      obtain ⟨i', hi', rfl⟩ := h
      obtain ⟨⟨c, hc1, hc2⟩, hmin⟩ := ih hi'
      refine ⟨⟨c, by simpa using hc1, hc2⟩, ?_⟩
      intro j d hj hd
      cases j with
      | zero =>
        simp at hd
        subst hd
        simpa using hp
      | succ j' =>
        simp at hd
        exact hmin j' d (by omega) hd

theorem findIdx?_none_spec {p : Char → Bool} {l : List Char}
    (h : l.findIdx? p = none) : ∀ c ∈ l, p c = false := by
  induction l with
  | nil => simp
  | cons x t ih =>
    have hcons : (x :: t).findIdx? p =
        if p x then some 0 else (t.findIdx? p).map (· + 1) := by
      simp [List.findIdx?_cons]
    rw [hcons] at h
    by_cases hp : p x
    · rw [if_pos hp] at h; simp at h
    · rw [if_neg hp] at h
      intro c hc
      rcases List.mem_cons.mp hc with rfl | hm
      · simpa using hp
      · cases ht : t.findIdx? p with
        | none => exact ih ht c hm
        | some k => rw [ht] at h; simp at h

theorem pyRfindSpace_spec {s : List Char} {e : Nat} {j : Int}
    (h : pyRfindSpace s e = j) (hj : 0 ≤ j) :
    ∃ jn : Nat, j = (jn : Int) ∧ jn < e ∧ jn < s.length ∧ s[jn]? = some ' ' ∧
      ∀ i, jn < i → i < e → s[i]? ≠ some ' ' := by
  unfold pyRfindSpace at h
  cases hf : (s.take e).reverse.findIdx? (fun c => c == ' ') with
  | none => rw [hf] at h; dsimp only at h; omega
  | some i =>
    rw [hf] at h
    dsimp only at h
    obtain ⟨⟨c, hc1, hc2⟩, hmin⟩ := findIdx?_some_spec hf
    have hceq : c = ' ' := eq_of_beq hc2
    subst hceq
    have hilen : i < (s.take e).reverse.length := (List.getElem?_eq_some.mp hc1).1
    rw [List.length_reverse] at hilen
    have hrev : (s.take e).reverse[i]? = (s.take e)[(s.take e).length - 1 - i]? := by
      rw [List.getElem?_reverse hilen]
    set jn := (s.take e).length - 1 - i with hjn
    have hlen : (s.take e).length = min e s.length := List.length_take e s
    have hjne : jn < e := by omega
    have hjns : jn < s.length := by omega
    refine ⟨jn, by exact_mod_cast h.symm, hjne, hjns, ?_, ?_⟩
    · rw [← show (s.take e)[jn]? = s[jn]? from by rw [List.getElem?_take, if_pos hjne],
        ← hrev, hc1]
    · intro k hk1 hk2 hks
      have hkl : k < s.length := (List.getElem?_eq_some.mp hks).1
      have hku : (s.take e)[k]? = some ' ' := by
        rw [List.getElem?_take, if_pos hk2]; exact hks
      have hkrev : (s.take e).reverse[(s.take e).length - 1 - k]? = some ' ' := by
        rw [List.getElem?_reverse (by omega)]
        rw [show (s.take e).length - 1 - ((s.take e).length - 1 - k) = k from by omega]
        exact hku
      have := hmin ((s.take e).length - 1 - k) ' ' (by omega) hkrev
      simp at this

theorem pyRfindSpace_ge {s : List Char} {e i0 : Nat} (hi : i0 < e)
    (hs : s[i0]? = some ' ') : (i0 : Int) ≤ pyRfindSpace s e := by
  have hi0l : i0 < s.length := (List.getElem?_eq_some.mp hs).1
  have hu : (s.take e)[i0]? = some ' ' := by
    rw [List.getElem?_take, if_pos hi]; exact hs
  have hlen : (s.take e).length = min e s.length := List.length_take e s
  have hi0u : i0 < (s.take e).length := by omega
  have hrev : (s.take e).reverse[(s.take e).length - 1 - i0]? = some ' ' := by
    rw [List.getElem?_reverse (by omega)]
    rw [show (s.take e).length - 1 - ((s.take e).length - 1 - i0) = i0 from by omega]
    exact hu
  unfold pyRfindSpace
  cases hf : (s.take e).reverse.findIdx? (fun c => c == ' ') with
  | none =>
    have := findIdx?_none_spec hf ' ' (List.getElem?_mem hrev)
    simp at this
  | some i =>
    dsimp only
    obtain ⟨_, hmin⟩ := findIdx?_some_spec hf
    have hle : i ≤ (s.take e).length - 1 - i0 := by
      by_contra hgt
      have := hmin ((s.take e).length - 1 - i0) ' ' (by omega) hrev
      simp at this
    have : i0 ≤ (s.take e).length - 1 - i := by omega
    omega

theorem dropWhile_head_false {p : Char → Bool} :
    ∀ {l : List Char} {d : Char} {r : List Char}, l.dropWhile p = d :: r → p d = false := by
  intro l
  induction l with
  | nil => intro d r h; simp at h
  | cons x t ih =>
    intro d r h
    rw [List.dropWhile_cons] at h
    by_cases hx : p x
    · rw [if_pos hx] at h; exact ih h
    · rw [if_neg hx] at h
      injection h with h1 _
      subst h1
      simpa using hx

theorem rstripWs_isPrefix (s : List Char) : rstripWs s <+: s := by
  unfold rstripWs
  have h1 : s.reverse.dropWhile pyIsSpace <:+ s.reverse := List.dropWhile_suffix pyIsSpace
  have h2 := List.reverse_prefix.mpr h1
  simpa using h2

theorem rstripWs_no_op {s : List Char} {c : Char} (hl : s.getLast? = some c)
    (hc : pyIsSpace c = false) : rstripWs s = s := by
  unfold rstripWs
  rw [List.getLast?_eq_head?_reverse] at hl
  cases hr : s.reverse with
  | nil => rw [hr] at hl; simp at hl
  | cons d r =>
    rw [hr] at hl
    simp at hl
    subst hl
    rw [List.dropWhile_cons, if_neg (by simp [hc])]
    conv_rhs => rw [← List.reverse_reverse s, hr]

theorem lstripWs_no_op {c : Char} {t : List Char} (hc : pyIsSpace c = false) :
    lstripWs (c :: t) = c :: t := by
  unfold lstripWs
  rw [List.dropWhile_cons, if_neg (by simp [hc])]

theorem pyStrip_head {s : List Char} {c : Char} {t : List Char}
    (h : pyStrip s = c :: t) : pyIsSpace c = false := by
  unfold pyStrip at h
  obtain ⟨r, hr⟩ := rstripWs_isPrefix (lstripWs s)
  rw [h] at hr
  exact dropWhile_head_false (l := s) (by simpa using hr.symm)

theorem collapseWs_cons_not_ws {c : Char} {t : List Char} (hc : pyIsSpace c = false) :
    collapseWs (c :: t) = c :: collapseWsF t.length t := by
  show collapseWsF (t.length + 1) (c :: t) = c :: collapseWsF t.length t
  rw [collapseWsF, if_neg (by simp [hc])]

theorem txt_head_not_ws {desc : List Char} {c : Char} {t : List Char}
    (h : collapseWs (html_to_text desc) = c :: t) : pyIsSpace c = false := by
  cases hz : html_to_text desc with
  | nil => rw [hz] at h; simp [collapseWs, collapseWsF] at h
  | cons d r =>
    have hd : pyIsSpace d = false := by
      unfold html_to_text at hz
      exact pyStrip_head hz
    rw [hz, collapseWs_cons_not_ws hd] at h
    injection h with h1 _
    exact h1 ▸ hd

theorem collapseWsF_dropWhile_head {f : Nat} {x : List Char} {d : Char} {r : List Char}
    (h : collapseWsF f (x.dropWhile pyIsSpace) = d :: r) : pyIsSpace d = false := by
  cases hx : x.dropWhile pyIsSpace with
  | nil =>
    rw [hx] at h
    cases f <;> simp [collapseWsF] at h
  | cons e t =>
    have he : pyIsSpace e = false := dropWhile_head_false hx
    rw [hx] at h
    cases f with
    | zero =>
      rw [collapseWsF] at h
      injection h with h1 _
      exact h1 ▸ he
    | succ f =>
      rw [collapseWsF, if_neg (by simp [he])] at h
      injection h with h1 _
      exact h1 ▸ he

theorem collapseWsF_noWsPair : ∀ (f : Nat) (s : List Char), s.length ≤ f →
    noWsPair (collapseWsF f s) := by
  intro f
  induction f with
  | zero =>
    intro s hs
    have : s = [] := List.length_eq_zero.mp (Nat.le_zero.mp hs)
    subst this
    simp [collapseWsF, noWsPair]
  | succ f ih =>
    intro s hs
    cases s with
    | nil => simp [collapseWsF, noWsPair]
    | cons c t =>
      by_cases hc : pyIsSpace c
      · rw [collapseWsF, if_pos (by simp [hc])]
        have hdw : (c :: t).dropWhile pyIsSpace = t.dropWhile pyIsSpace := by
          rw [List.dropWhile_cons, if_pos (by simp [hc])]
        have hlen : ((c :: t).dropWhile pyIsSpace).length ≤ f := by
          rw [hdw]
          have := (List.dropWhile_suffix (l := t) pyIsSpace).length_le
          simp at hs
          omega
        have hrec := ih _ hlen
        cases hout : collapseWsF f ((c :: t).dropWhile pyIsSpace) with
        | nil => simp [noWsPair]
        | cons d r =>
          have hd : pyIsSpace d = false :=
            collapseWsF_dropWhile_head (x := c :: t) hout
          rw [hout] at hrec
          exact ⟨fun hpair => by rw [hd] at hpair; exact absurd hpair.2 (by simp), hrec⟩
      · rw [collapseWsF, if_neg (by simpa using hc)]
        have hrec := ih t (by simp at hs; omega)
        cases hout : collapseWsF f t with
        | nil => simp [noWsPair]
        | cons d r =>
          rw [hout] at hrec
          refine ⟨fun hpair => ?_, hrec⟩
          rw [show pyIsSpace c = false from by simpa using hc] at hpair
          exact absurd hpair.1 (by simp)

theorem noWsPair_adj {l : List Char} (h : noWsPair l) :
    ∀ k a b, l[k]? = some a → l[k + 1]? = some b →
      ¬ (pyIsSpace a = true ∧ pyIsSpace b = true) := by
  induction l with
  | nil => intro k a b ha; simp at ha
  | cons c t ih =>
    intro k a b ha hb
    cases t with
    | nil =>
      cases k with
      | zero => simp at hb
      | succ k' => simp at ha
    | cons d r =>
      obtain ⟨hpair, hrest⟩ := h
      cases k with
      | zero =>
        have ha' : c = a := by simpa using ha
        have hb' : d = b := by simpa using hb
        subst ha'
        subst hb'
        exact hpair
      | succ k' =>
        exact ih hrest k' a b (by simpa using ha) (by simpa using hb)

theorem excerpt_tail_spec (txt : List Char) (hnw : noWsPair txt)
    (hhead : ∀ c t, txt = c :: t → pyIsSpace c = false)
    (hlen : 160 < txt.length) :
    ∃ cutN : Nat, 1 ≤ cutN ∧ cutN ≤ 160 ∧
      (if pyRfindSpace txt 160 < ((150 : Nat) : Int) then ((160 : Nat) : Int)
        else pyRfindSpace txt 160).toNat = cutN ∧
      pyStrip (txt.take cutN) <+: txt ∧
      (pyStrip (txt.take cutN)).length ≤ 160 ∧
      (∀ i0, 150 ≤ i0 → i0 < 160 → txt[i0]? = some ' ' →
        150 ≤ cutN ∧ cutN < 160 ∧ pyStrip (txt.take cutN) = txt.take cutN ∧
          txt[cutN]? = some ' ') := by
  obtain ⟨c0, t0, htxt⟩ : ∃ c0 t0, txt = c0 :: t0 := by
    cases txt with
    | nil => simp at hlen
    | cons a b => exact ⟨a, b, rfl⟩
  have hc0 : pyIsSpace c0 = false := hhead _ _ htxt
  have hstrip_pre : ∀ n, 1 ≤ n → pyStrip (txt.take n) = rstripWs (txt.take n) := by
    intro n hn
    obtain ⟨m, rfl⟩ : ∃ m, n = m + 1 := ⟨n - 1, by omega⟩
    unfold pyStrip
    rw [htxt, List.take_succ_cons, lstripWs_no_op hc0]
  by_cases hcase : pyRfindSpace txt 160 < ((150 : Nat) : Int)
  · refine ⟨160, by omega, by omega, by rw [if_pos hcase]; rfl, ?_, ?_, ?_⟩
    · rw [hstrip_pre 160 (by omega)]
      exact (rstripWs_isPrefix _).trans (List.take_prefix _ _)
    · rw [hstrip_pre 160 (by omega)]
      have h1 := (rstripWs_isPrefix (txt.take 160)).length_le
      have h2 : (txt.take 160).length ≤ 160 := by
        rw [List.length_take]; omega
      omega
    · intro i0 h1 h2 h3
      have := pyRfindSpace_ge h2 h3
      push_cast at hcase
      omega
  · have h0 : (0 : Int) ≤ pyRfindSpace txt 160 := by push_cast at hcase; omega
    obtain ⟨jn, hjeq, hjlt, hjlen, hjsp, _⟩ := pyRfindSpace_spec rfl h0
    have hjn150 : 150 ≤ jn := by
      by_contra hlt
      apply hcase
      rw [hjeq]
      exact_mod_cast (by omega : jn < 150)
    have hjn1 : 1 ≤ jn := by omega
    have hcut : (if pyRfindSpace txt 160 < ((150 : Nat) : Int) then ((160 : Nat) : Int)
        else pyRfindSpace txt 160).toNat = jn := by
      rw [if_neg hcase, hjeq]
      simp
    have hxlen : (txt.take jn).length = jn := by
      rw [List.length_take]; omega
    have hglast : (txt.take jn).getLast? = txt[jn - 1]? := by
      rw [List.getLast?_eq_getElem?, hxlen, List.getElem?_take, if_pos (by omega)]
    have hvlast : txt[jn - 1]? = some (txt[jn - 1]) :=
      List.getElem?_eq_getElem (by omega)
    have hwlast : pyIsSpace (txt[jn - 1]) = false := by
      by_contra hws
      have hws : pyIsSpace (txt[jn - 1]) = true := by
        cases hb : pyIsSpace (txt[jn - 1]) with
        | false => exact absurd hb hws
        | true => rfl
      have hadj := noWsPair_adj hnw (jn - 1) (txt[jn - 1]) ' ' hvlast
        (by rw [show jn - 1 + 1 = jn from by omega]; exact hjsp)
      exact hadj ⟨hws, by decide⟩
    have hnoop : pyStrip (txt.take jn) = txt.take jn := by
      rw [hstrip_pre jn (by omega)]
      exact rstripWs_no_op (by rw [hglast]; exact hvlast) hwlast
    refine ⟨jn, by omega, by omega, hcut, ?_, ?_, ?_⟩
    · rw [hnoop]; exact List.take_prefix _ _
    · rw [hnoop, hxlen]; omega
    · intro i0 _ _ _
      exact ⟨hjn150, hjlt, hnoop, hjsp⟩

/-- C5 amended: `_make_excerpt` strips markup, collapses whitespace runs,
and returns a prefix of the collapsed text of at most 160 characters — the
whole text when it fits.  When the collapsed text is longer, the excerpt
ends at a word boundary provided some space occurs at an index in
`[150, 160)` of the collapsed text (it is then the exact prefix up to the
last such space); without such a space the code hard-cuts at 160
characters, which can fall inside a word. -/
theorem c5_excerpt_amended (desc : List Char) :
    (make_excerpt desc 160 150).length ≤ 160 ∧
    make_excerpt desc 160 150 <+: collapseWs (html_to_text desc) ∧
    ((collapseWs (html_to_text desc)).length ≤ 160 →
      make_excerpt desc 160 150 = collapseWs (html_to_text desc)) ∧
    (160 < (collapseWs (html_to_text desc)).length →
      ∀ i0, 150 ≤ i0 → i0 < 160 → (collapseWs (html_to_text desc))[i0]? = some ' ' →
      ∃ cut, 150 ≤ cut ∧ cut < 160 ∧
        make_excerpt desc 160 150 = (collapseWs (html_to_text desc)).take cut ∧
        (collapseWs (html_to_text desc))[cut]? = some ' ') := by
  by_cases hlen : (collapseWs (html_to_text desc)).length ≤ 160
  · have he : make_excerpt desc 160 150 = collapseWs (html_to_text desc) := by
      simp only [make_excerpt]
      rw [if_pos hlen]
    exact ⟨by rw [he]; exact hlen, by rw [he], fun _ => he,
      fun hgt => absurd hlen (by omega)⟩
  · have hnw : noWsPair (collapseWs (html_to_text desc)) :=
      collapseWsF_noWsPair _ _ (Nat.le_refl _)
    have hhead : ∀ c t, collapseWs (html_to_text desc) = c :: t → pyIsSpace c = false :=
      fun c t h => txt_head_not_ws h
    obtain ⟨cutN, hc1, hc160, hcuteq, hpre, hplen, hbound⟩ :=
      excerpt_tail_spec (collapseWs (html_to_text desc)) hnw hhead (by omega)
    have hform : make_excerpt desc 160 150 =
        pyStrip ((collapseWs (html_to_text desc)).take cutN) := by
      simp only [make_excerpt]
      rw [if_neg hlen, hcuteq]
    refine ⟨by rw [hform]; exact hplen, by rw [hform]; exact hpre,
      fun hc => absurd hc hlen, fun _ i0 h1 h2 h3 => ?_⟩
    obtain ⟨hb1, hb2, hb3, hb4⟩ := hbound i0 h1 h2 h3
    exact ⟨cutN, hb1, hb2, by rw [hform]; exact hb3, hb4⟩

/-- C5 counterexample: for the markup-free 300-character description made of
300 letters `a` (no spaces), the excerpt is the 160-character hard cut: it
is a strict prefix of the collapsed source and the character right after it
is not a space, so the excerpt does not end at a word boundary, refuting
the unconditional word-boundary conjunct of the claim. -/
theorem c5_excerpt_counterexample :
    make_excerpt (List.replicate 300 'a') 160 150 = List.replicate 160 'a' ∧
    collapseWs (html_to_text (List.replicate 300 'a')) = List.replicate 300 'a' ∧
    ¬ ((make_excerpt (List.replicate 300 'a') 160 150).length =
        (collapseWs (html_to_text (List.replicate 300 'a'))).length ∨
       (collapseWs (html_to_text (List.replicate 300 'a')))[
         (make_excerpt (List.replicate 300 'a') 160 150).length]? = some ' ') := by
  refine ⟨by decide, by decide, by decide⟩

/-- Witness for C5 at a concrete 300-character source with a space at
index 155 of the collapsed text. -/
theorem c5_excerpt_amended_witness :
    ∃ cut, 150 ≤ cut ∧ cut < 160 ∧
      make_excerpt (List.replicate 155 'a' ++ ' ' :: List.replicate 144 'b') 160 150 =
        (collapseWs (html_to_text
          (List.replicate 155 'a' ++ ' ' :: List.replicate 144 'b'))).take cut ∧
      (collapseWs (html_to_text
        (List.replicate 155 'a' ++ ' ' :: List.replicate 144 'b')))[cut]? = some ' ' :=
  (c5_excerpt_amended (List.replicate 155 'a' ++ ' ' :: List.replicate 144 'b')).2.2.2
    (by decide) 155 (by decide) (by decide) (by decide)

theorem exceptOk_bind {α β ε : Type} (a : α) (f : α → Except ε β) :
    ((Except.ok a : Except ε α) >>= f) = f a := rfl

theorem exceptErr_bind {α β ε : Type} (e : ε) (f : α → Except ε β) :
    ((Except.error e : Except ε α) >>= f) = Except.error e := rfl

theorem getKey_some {α : Type} (a : α) : getKey (some a) = (.ok a : Except PyErr α) := rfl

theorem replaceAllF_not_contains {pat repl : List Char} :
    ∀ f s, containsSubstr pat s = false → replaceAllF pat repl f s = s := by
  intro f
  induction f with
  | zero => intro s _; rfl
  | succ f ih =>
    intro s h
    rw [replaceAllF.eq_def]
    dsimp only
    have hnp : ¬ (pat ≠ [] ∧ pat.isPrefixOf s) := by
      rintro ⟨_, h2⟩
      have hc := containsSubstr_of_prefix_drop (i := 0) (s := s)
        (by simpa using List.isPrefixOf_iff_prefix.mp h2)
      rw [hc] at h
      cases h
    rw [if_neg hnp]
    cases s with
    | nil => rfl
    | cons c t =>
      dsimp only
      rw [ih t (containsSubstr_cons_false h).1]

theorem pyReplace_not_contains {pat s repl : List Char}
    (h : containsSubstr pat s = false) : pyReplace s pat repl = s :=
  replaceAllF_not_contains _ _ h

theorem countOcc_append_no_lt {pt a b : List Char} (ha : ∀ c ∈ a, c ≠ '<') :
    countOcc ('<' :: pt) (a ++ b) = countOcc ('<' :: pt) b := by
  induction a with
  | nil => simp
  | cons c t ih =>
    have hc : c ≠ '<' := ha c (by simp)
    rw [List.cons_append, countOcc,
      if_neg (by simp [isPrefixAt]; intro h; exact absurd h.symm hc)]
    simpa using ih (fun d hd => ha d (List.mem_cons_of_mem _ hd))

theorem countOcc_stepOpen_no_lt {a b : List Char} (ha : ∀ c ∈ a, c ≠ '<') :
    countOcc stepOpen (a ++ b) = countOcc stepOpen b :=
  countOcc_append_no_lt ha

theorem countOcc_liOpen_no_lt {a b : List Char} (ha : ∀ c ∈ a, c ≠ '<') :
    countOcc liOpen (a ++ b) = countOcc liOpen b :=
  countOcc_append_no_lt ha

theorem countOcc_step_pre (X : List Char) :
    countOcc stepOpen (str "<div class=\"step\"><p>" ++ X) = countOcc stepOpen X + 1 := rfl

theorem countOcc_step_post (X : List Char) :
    countOcc stepOpen (str "</p></div>" ++ X) = countOcc stepOpen X := rfl

theorem countOcc_step_nl (X : List Char) :
    countOcc stepOpen (str "\n" ++ X) = countOcc stepOpen X := rfl

theorem countOcc_step_end : countOcc stepOpen (str "</p></div>") = 0 := rfl

theorem countOcc_li_ul (X : List Char) :
    countOcc liOpen (str "<ul>" ++ X) = countOcc liOpen X := rfl

theorem countOcc_li_open (X : List Char) :
    countOcc liOpen (str "<li>" ++ X) = countOcc liOpen X + 1 := rfl

theorem countOcc_li_close (X : List Char) :
    countOcc liOpen (str "</li>" ++ X) = countOcc liOpen X := rfl

theorem countOcc_li_nl (X : List Char) :
    countOcc liOpen (str "\n" ++ X) = countOcc liOpen X := rfl

theorem countOcc_li_endul : countOcc liOpen (str "</ul>") = 0 := rfl

theorem etapesHtml_count {etapes : List (List Char)}
    (h : ∀ e ∈ etapes, ∀ c ∈ e, c ≠ '<') :
    countOcc stepOpen (etapesHtml etapes) = etapes.length := by
  induction etapes with
  | nil => rfl
  | cons e rest ih =>
    cases rest with
    | nil =>
      show countOcc stepOpen (stepBlock e) = 1
      rw [show stepBlock e =
          str "<div class=\"step\"><p>" ++ (e ++ str "</p></div>") from by
        simp [stepBlock, List.append_assoc]]
      rw [countOcc_step_pre, countOcc_stepOpen_no_lt (h e (by simp)), countOcc_step_end]
    | cons e2 rest2 =>
      show countOcc stepOpen (stepBlock e ++ str "\n" ++ etapesHtml (e2 :: rest2)) =
        (e :: e2 :: rest2).length
      rw [show stepBlock e ++ str "\n" ++ etapesHtml (e2 :: rest2) =
          str "<div class=\"step\"><p>" ++
            (e ++ (str "</p></div>" ++ (str "\n" ++ etapesHtml (e2 :: rest2)))) from by
        simp [stepBlock, List.append_assoc]]
      rw [countOcc_step_pre, countOcc_stepOpen_no_lt (h e (by simp)),
        countOcc_step_post, countOcc_step_nl,
        ih (fun d hd => h d (List.mem_cons_of_mem _ hd))]
      simp

theorem rows_count {rows : List (List Char)}
    (h : ∀ r ∈ rows, ∃ body, r = str "<li>" ++ body ++ str "</li>" ∧ ∀ c ∈ body, c ≠ '<') :
    countOcc liOpen (joinSep (str "\n") rows ++ str "</ul>") = rows.length := by
  induction rows with
  | nil => rfl
  | cons r rest ih =>
    obtain ⟨body, hr, hbody⟩ := h r (by simp)
    cases rest with
    | nil =>
      show countOcc liOpen (r ++ str "</ul>") = 1
      rw [hr,
        show (str "<li>" ++ body ++ str "</li>") ++ str "</ul>" =
          str "<li>" ++ (body ++ (str "</li>" ++ str "</ul>")) from by
        simp [List.append_assoc]]
      rw [countOcc_li_open, countOcc_liOpen_no_lt hbody, countOcc_li_close,
        countOcc_li_endul]
    | cons r2 rest2 =>
      show countOcc liOpen ((r ++ str "\n" ++ joinSep (str "\n") (r2 :: rest2)) ++
        str "</ul>") = (r :: r2 :: rest2).length
      rw [hr,
        show ((str "<li>" ++ body ++ str "</li>") ++ str "\n" ++
            joinSep (str "\n") (r2 :: rest2)) ++ str "</ul>" =
          str "<li>" ++ (body ++ (str "</li>" ++ (str "\n" ++
            (joinSep (str "\n") (r2 :: rest2) ++ str "</ul>")))) from by
        simp [List.append_assoc]]
      rw [countOcc_li_open, countOcc_liOpen_no_lt hbody, countOcc_li_close,
        countOcc_li_nl, ih (fun d hd => h d (List.mem_cons_of_mem _ hd))]
      simp

theorem except_pure_eq {α ε : Type} (a : α) : (pure a : Except ε α) = .ok a := rfl

theorem getKey_none {α : Type} : (getKey none : Except PyErr α) = .error .keyError := rfl

theorem natDigitsF_no_lt {f n : Nat} : ∀ c ∈ natDigitsF f n, c ≠ '<' := by
  intro c hc
  obtain ⟨_, h2⟩ := natDigitsF_digits c hc
  intro he
  subst he
  exact absurd h2 (by decide)

theorem intStr_no_lt (q : Int) : ∀ c ∈ intStr q, c ≠ '<' := by
  cases q with
  | ofNat n => exact fun c hc => natDigitsF_no_lt c hc
  | negSucc m =>
    intro c hc
    rcases List.mem_cons.mp hc with rfl | hm
    · decide
    · exact natDigitsF_no_lt c hm

theorem fmt_no_lt {q : Int} {u n : List Char}
    (hu : ∀ c ∈ u, c ≠ '<') (hn : ∀ c ∈ n, c ≠ '<') :
    ∀ c ∈ fmt q u n, c ≠ '<' := by
  unfold fmt
  split_ifs with h1 h2 h3
  · simp only [List.forall_mem_append]
    exact ⟨⟨⟨⟨intStr_no_lt q, by decide⟩, hu⟩, by decide⟩, hn⟩
  · exact hn
  · simp only [List.forall_mem_append]
    exact ⟨⟨intStr_no_lt q, by decide⟩, hn⟩
  · exact hn

theorem liOf_ok_shape {getQ : IngItem → Option Int} {it : IngItem} {row : List Char}
    (hf : liOf getQ it = .ok row)
    (hang : (∀ c ∈ it.nom.getD [], c ≠ '<') ∧ (∀ c ∈ it.unite.getD [], c ≠ '<')) :
    ∃ body, row = str "<li>" ++ body ++ str "</li>" ∧ ∀ c ∈ body, c ≠ '<' := by
  unfold liOf at hf
  cases hq : getQ it with
  | none => rw [hq] at hf; simp [getKey_none, exceptErr_bind] at hf
  | some q =>
    rw [hq] at hf
    simp only [getKey_some, exceptOk_bind] at hf
    cases hn : it.nom with
    | none => rw [hn] at hf; simp [getKey_none, exceptErr_bind] at hf
    | some nm =>
      rw [hn] at hf
      simp only [getKey_some, exceptOk_bind, except_pure_eq, Except.ok.injEq] at hf
      have h1 := hang.1
      rw [hn] at h1
      simp only [Option.getD_some] at h1
      exact ⟨fmt q (it.unite.getD []) nm, hf.symm, fmt_no_lt hang.2 h1⟩

theorem mapM_liOf_shape {getQ : IngItem → Option Int} :
    ∀ {items : List IngItem} {rows : List (List Char)},
      items.mapM (liOf getQ) = .ok rows →
      (∀ it ∈ items,
        (∀ c ∈ it.nom.getD [], c ≠ '<') ∧ (∀ c ∈ it.unite.getD [], c ≠ '<')) →
      rows.length = items.length ∧
        ∀ r ∈ rows, ∃ body, r = str "<li>" ++ body ++ str "</li>" ∧ ∀ c ∈ body, c ≠ '<' := by
  intro items
  induction items with
  | nil =>
    intro rows h _
    simp only [List.mapM_nil, except_pure_eq, Except.ok.injEq] at h
    subst h
    simp
  | cons it rest ih =>
    intro rows h hang
    rw [List.mapM_cons] at h
    cases hf : liOf getQ it with
    | error e => rw [hf] at h; simp [exceptErr_bind] at h
    | ok row =>
      rw [hf] at h
      rw [exceptOk_bind] at h
      cases hrest : rest.mapM (liOf getQ) with
      | error e => rw [hrest] at h; simp [exceptErr_bind] at h
      | ok rows' =>
        rw [hrest, exceptOk_bind] at h
        simp only [except_pure_eq, Except.ok.injEq] at h
        subst h
        obtain ⟨hl, hsh⟩ := ih hrest (fun x hx => hang x (List.mem_cons_of_mem _ hx))
        refine ⟨by simp [hl], ?_⟩
        intro r hr
        rcases List.mem_cons.mp hr with rfl | hm
        · exact liOf_ok_shape hf (hang it (by simp))
        · exact hsh r hm

theorem ul_count_of_rows {items : List IngItem} {getQ : IngItem → Option Int}
    {rows : List (List Char)}
    (hI : ∀ it ∈ items,
      (∀ c ∈ it.nom.getD [], c ≠ '<') ∧ (∀ c ∈ it.unite.getD [], c ≠ '<'))
    (hm : items.mapM (liOf getQ) = .ok rows) :
    countOcc liOpen (str "<ul>" ++ joinSep (str "\n") rows ++ str "</ul>") =
      items.length := by
  obtain ⟨hl, hsh⟩ := mapM_liOf_shape hm hI
  rw [show str "<ul>" ++ joinSep (str "\n") rows ++ str "</ul>" =
      str "<ul>" ++ (joinSep (str "\n") rows ++ str "</ul>") from by
    simp [List.append_assoc]]
  rw [countOcc_li_ul, rows_count hsh, hl]

/-- C8: one rendered step block per step string, and one rendered `<li>` per
ingredient item in each of the three serving-size lists: for markup-free
record strings, the number of `<div class="step">` blocks in `etapes_html`
equals `len(etapes)`, and each `<ul>` built from a serving-size column
contains exactly one `<li>` per entry of `ingredients_items`. -/
theorem c8_block_and_item_counts (etapes : List (List Char)) (items : List IngItem)
    (rows2 rows3 rows4 : List (List Char))
    (hE : ∀ e ∈ etapes, ∀ c ∈ e, c ≠ '<')
    (hI : ∀ it ∈ items,
      (∀ c ∈ it.nom.getD [], c ≠ '<') ∧ (∀ c ∈ it.unite.getD [], c ≠ '<'))
    (hm2 : items.mapM (liOf (fun it => it.pour_2)) = .ok rows2)
    (hm3 : items.mapM (liOf (fun it => it.pour_3)) = .ok rows3)
    (hm4 : items.mapM (liOf (fun it => it.pour_4)) = .ok rows4) :
    countOcc stepOpen (etapesHtml etapes) = etapes.length ∧
    countOcc liOpen (str "<ul>" ++ joinSep (str "\n") rows2 ++ str "</ul>") =
      items.length ∧
    countOcc liOpen (str "<ul>" ++ joinSep (str "\n") rows3 ++ str "</ul>") =
      items.length ∧
    countOcc liOpen (str "<ul>" ++ joinSep (str "\n") rows4 ++ str "</ul>") =
      items.length :=
  ⟨etapesHtml_count hE, ul_count_of_rows hI hm2, ul_count_of_rows hI hm3,
    ul_count_of_rows hI hm4⟩

/-- Witness for C8 on the sample record: two steps, one ingredient. -/
theorem c8_block_and_item_counts_witness :
    countOcc stepOpen (etapesHtml [str "E1", str "E2"]) = 2 ∧
    countOcc liOpen (str "<ul>" ++
      joinSep (str "\n") [str "<li>150 g — Riz</li>"] ++ str "</ul>") =
      sampleItems.length ∧
    countOcc liOpen (str "<ul>" ++
      joinSep (str "\n") [str "<li>225 g — Riz</li>"] ++ str "</ul>") =
      sampleItems.length ∧
    countOcc liOpen (str "<ul>" ++
      joinSep (str "\n") [str "<li>300 g — Riz</li>"] ++ str "</ul>") =
      sampleItems.length :=
  c8_block_and_item_counts [str "E1", str "E2"] sampleItems
    [str "<li>150 g — Riz</li>"] [str "<li>225 g — Riz</li>"]
    [str "<li>300 g — Riz</li>"]
    (by decide) (by decide) (by rfl) (by rfl) (by rfl)

theorem getItem_zero {α : Type} (a : α) (l : List α) :
    getItem (a :: l) 0 = (.ok a : Except PyErr α) := rfl

theorem getItem_one {α : Type} (a b : α) (l : List α) :
    getItem (a :: b :: l) 1 = (.ok b : Except PyErr α) := rfl

/-- C6 counterexample: the assembler raises neither a TemplateError when every
placeholder is absent from the template, nor a ValidationError when the record
has no ingredient list at all — both runs succeed. -/
theorem c6_assembler_errors_counterexample :
    generate_html_from_template (str "hello") sampleRecipe (str "images/x.png") =
      .ok (str "hello") ∧
    generate_html_from_template phIng2 sampleRecipeNoItems (str "images/x.png") =
      .ok (str "<ul></ul>") := ⟨rfl, rfl⟩

/-- C6 (amended): the assembler has no TemplateError and no ValidationError.
A record lacking the required `etapes` key fails with Python KeyError
(`data["etapes"]`), while a template containing none of the thirteen
placeholders is returned unchanged — even when the record is missing its
`ingredients_items` list entirely. -/
theorem c6_assembler_errors (template img t d du di a c0 c1 : List Char)
    (cs es0 : List (List Char)) (dataM : RecipeData)
    (hM : dataM.etapes = none)
    (h1 : containsSubstr phTitre template = false)
    (h2 : containsSubstr phDescription template = false)
    (h3 : containsSubstr phImage template = false)
    (h4 : containsSubstr phDuree template = false)
    (h5 : containsSubstr phDureeIso template = false)
    (h6 : containsSubstr phEtapes template = false)
    (h7 : containsSubstr phIng2 template = false)
    (h8 : containsSubstr phIng3 template = false)
    (h9 : containsSubstr phIng4 template = false)
    (h10 : containsSubstr phAstuce template = false)
    (h11 : containsSubstr phConseil1 template = false)
    (h12 : containsSubstr phConseil2 template = false)
    (h13 : containsSubstr phSchema template = false) :
    generate_html_from_template template dataM img = .error PyErr.keyError ∧
    generate_html_from_template template
      ⟨some t, some d, some du, some di, some es0, none, some a,
        some (c0 :: c1 :: cs)⟩ img = .ok template := by
  constructor
  · unfold generate_html_from_template
    rw [hM]
    rfl
  · unfold generate_html_from_template
    dsimp only
    simp only [getKey_some, exceptOk_bind, Option.getD_none, List.mapM_nil,
      except_pure_eq, getItem_zero, getItem_one]
    rw [pyReplace_not_contains h1, pyReplace_not_contains h2,
      pyReplace_not_contains h3, pyReplace_not_contains h4,
      pyReplace_not_contains h5, pyReplace_not_contains h6,
      pyReplace_not_contains h7, pyReplace_not_contains h8,
      pyReplace_not_contains h9, pyReplace_not_contains h10,
      pyReplace_not_contains h11, pyReplace_not_contains h12,
      pyReplace_not_contains h13]

/-- Witness for C6: a missing `etapes` key raises KeyError, and a
placeholder-free template passes through unchanged with no ingredient list. -/
theorem c6_assembler_errors_witness :
    generate_html_from_template (str "hello")
      { sampleRecipe with etapes := none } (str "x") = .error PyErr.keyError ∧
    generate_html_from_template (str "hello")
      ⟨some (str "T"), some (str "D"), some (str "25"), some (str "PT25M"),
       some [str "E1"], none, some (str "A"), some [str "C1", str "C2"]⟩
      (str "x") = .ok (str "hello") :=
  c6_assembler_errors (str "hello") (str "x") (str "T") (str "D") (str "25")
    (str "PT25M") (str "A") (str "C1") (str "C2") [] [str "E1"]
    { sampleRecipe with etapes := none } rfl
    (by decide) (by decide) (by decide) (by decide) (by decide) (by decide)
    (by decide) (by decide) (by decide) (by decide) (by decide) (by decide)
    (by decide)

end Recettes
